import Mathlib

/-!
Verification development for the boss-timer notification bot (src/main.py).

Embedding conventions.

* Time is measured in integer seconds on one uniform timeline in which the
  local (JST) midnight falls at multiples of 86400.  This is the Unix
  timeline shifted by the constant zone offset, so every difference,
  comparison and stored timestamp of the source is preserved; fractional
  seconds are dropped (the source stores `int(dt.timestamp())` and the
  claims are about whole-second arithmetic).
* Python dictionaries become association lists that preserve insertion
  order (`alookup` finds the first binding, `assocSet` overwrites in place
  or appends), matching CPython dict semantics.
* `unicodedata.normalize("NFKC", s)` is modelled per character by
  `nfkcChar`: the fullwidth ASCII block U+FF01..U+FF5E maps to its ASCII
  counterpart and the ideographic space U+3000 maps to a plain space, which
  is exactly the NFKC behaviour on those code points; every other character
  appearing in this development (ASCII, hiragana, katakana, CJK) is
  NFKC-invariant and is kept unchanged.  `str.lower` is modelled on ASCII
  (the only cased characters that occur), and `str.isalnum` by the
  alphanumeric ranges of the characters that occur (ASCII letters/digits,
  hiragana, katakana, CJK ideographs); spaces and separator punctuation
  are not alphanumeric.
* Code that can raise (`datetime.replace` with an out-of-range hour or
  minute) returns `Except Unit`; `.error ()` is a propagating exception.
* The notification dedup store `self._sent_keys` keys its entries by
  `(kind, channel, next_spawn_utc, name)`.  A run of the scanner over a
  single record of a single guild fixes the channel and the name, so keys
  are modelled as `(kind, occurrence timestamp)` pairs with their TTL
  expiry instants.
-/

/-- Tokenizer for Python `str.split()` on runs of spaces, with an
accumulator of the current (reversed) token. -/
def splitAux : List Char → List Char → List String
  | [], acc => if acc.isEmpty then [] else [String.mk acc.reverse]
  | c :: t, acc =>
    if c = ' ' then
      if acc.isEmpty then splitAux t [] else String.mk acc.reverse :: splitAux t []
    else splitAux t (c :: acc)

/-- Python `str.split()` restricted to the space separator (the inputs
modelled here contain no other whitespace): splits on runs of spaces and
drops empty fragments, which also absorbs the `strip()` the caller does. -/
def pySplit (s : String) : List String :=
  splitAux s.data []

/-- ASCII lower-casing, the behaviour of Python `str.lower` on the cased
characters that occur after NFKC folding in this development. -/
def pyLower (c : Char) : Char :=
  if 'A' ≤ c ∧ c ≤ 'Z' then Char.ofNat (c.toNat + 32) else c

/-- Python `str.isalnum` on the character set used here: ASCII letters and
digits, hiragana (U+3041..U+3096, U+309D..U+309F), katakana
(U+30A1..U+30FA, U+30FC..U+30FF — the middle dot U+30FB is punctuation),
and CJK ideographs.  Spaces, ASCII punctuation, the ideographic comma and
the katakana middle dot are not alphanumeric. -/
def pyIsAlnum (c : Char) : Bool :=
  decide ('0' ≤ c ∧ c ≤ '9') || decide ('a' ≤ c ∧ c ≤ 'z') ||
  decide ('A' ≤ c ∧ c ≤ 'Z') ||
  decide (0x3041 ≤ c.toNat ∧ c.toNat ≤ 0x3096) ||
  decide (0x309D ≤ c.toNat ∧ c.toNat ≤ 0x309F) ||
  decide (0x30A1 ≤ c.toNat ∧ c.toNat ≤ 0x30FA) ||
  decide (0x30FC ≤ c.toNat ∧ c.toNat ≤ 0x30FF) ||
  decide (0x4E00 ≤ c.toNat ∧ c.toNat ≤ 0x9FFF)

/-- Per-character NFKC: fullwidth ASCII folds to ASCII, the ideographic
space folds to a space; the remaining characters used in this development
are NFKC-invariant. -/
def nfkcChar (c : Char) : List Char :=
  if 0xFF01 ≤ c.toNat ∧ c.toNat ≤ 0xFF5E then [Char.ofNat (c.toNat - 0xFEE0)]
  else if c.toNat = 0x3000 then [' ']
  else [c]

/-- `normalize_for_match` from src/main.py: NFKC-normalize, lower-case,
then keep only the alphanumeric characters. -/
def normalize_for_match (s : String) : String :=
  String.mk (((s.data.map nfkcChar).flatten.map pyLower).filter pyIsAlnum)

/-- Integer value of a list of ASCII digits (what `int` does on the digit
strings that pass the caller's guards). -/
def digitsToInt (cs : List Char) : Int :=
  cs.foldl (fun a c => 10 * a + ((c.toNat : Int) - 48)) 0

/-- `zfill_hhmm` from src/main.py: left-pad the token with zeros to four
characters and read the first two as the hour, the last two as the
minute. -/
def zfillHHMM (s : String) : Int × Int :=
  let p := List.replicate (4 - s.length) '0' ++ s.data
  (digitsToInt (p.take 2), digitsToInt (p.drop 2))

/-- Start of the current local day: local midnights sit at multiples of
86400 on the modelled timeline. -/
def dayStart (n : Int) : Int := n - n % 86400

/-- `jnow.replace(hour=h, minute=m, second=0, microsecond=0)`:
`datetime.replace` raises `ValueError` when the hour or minute is out of
range, which is modelled as `.error ()`. -/
def replaceHM (n : Int) (hm : Int × Int) : Except Unit Int :=
  if 0 ≤ hm.1 ∧ hm.1 ≤ 23 ∧ 0 ≤ hm.2 ∧ hm.2 ≤ 59 then
    .ok (dayStart n + 3600 * hm.1 + 60 * hm.2)
  else .error ()

/-- The guard `parts[1].isdigit() and 3 <= len(parts[1]) <= 4` from
`_parse_kill_input` (ASCII digits; the modelled inputs use no exotic
Unicode digit). -/
def tokIsHHMM (t : String) : Bool :=
  t.data.all Char.isDigit && decide (3 ≤ t.length) && decide (t.length ≤ 4)

/-- Unsigned decimal literal split into integer part, fraction digits and
fraction length: the exact value `float` returns on the plain decimal
tokens modelled here (exponent forms, `inf`/`nan` and surrounding
whitespace do not occur in the claims). -/
def parseUDec (cs : List Char) : Option (Int × Int × Nat) :=
  let ip := cs.takeWhile (· ≠ '.')
  let rest := cs.drop ip.length
  match rest with
  | [] =>
    if ip ≠ [] ∧ ip.all Char.isDigit then some (digitsToInt ip, 0, 0) else none
  | _ :: fp =>
    if (ip ≠ [] ∨ fp ≠ []) ∧ ip.all Char.isDigit ∧ fp.all Char.isDigit then
      some (digitsToInt ip, digitsToInt fp, fp.length)
    else none

/-- Signed decimal literal: sign 1 or -1 together with the unsigned
parts. -/
def parseDec (cs : List Char) : Option (Int × Int × Int × Nat) :=
  match cs with
  | '-' :: r => (parseUDec r).map (fun q => (-1, q))
  | '+' :: r => (parseUDec r).map (fun q => (1, q))
  | _ => (parseUDec cs).map (fun q => (1, q))

/-- Python `round` at a rational `num / den` (`den > 0`) written with
integer arithmetic: round half to even. -/
def bankerDiv (num den : Int) : Int :=
  let q := num.ediv den
  let r := num.emod den
  if 2 * r < den then q
  else if den < 2 * r then q + 1
  else if Even q then q else q + 1

/-- `parts[2].lower().endswith("h")`: the token's last character
lower-cases to an ASCII `h`. -/
def tokEndsH (t : String) : Bool :=
  match t.data.getLast? with
  | some c => decide (pyLower c = 'h')
  | none => false

/-- The interval-override token of `_parse_kill_input`:
`parts[2].lower().endswith("h")` guards the branch, then
`int(round(float(parts[2][:-1]) * 60))` is computed (here exactly: the
decimal value times 60, rounded half to even), with any exception mapped
to `None`. -/
def parseIntervalToken (t : String) : Option Int :=
  if tokEndsH t then
    match parseDec t.data.dropLast with
    | some (s, ip, fp, d) =>
      some (bankerDiv (s * (60 * (ip * 10 ^ d + fp))) (10 ^ d))
    | none => none
  else none

deriving instance DecidableEq for Except

/-- Ordered association-list lookup: first binding wins, mirroring a
Python dict (whose keys are unique) and the insertion-ordered scans the
source does. -/
def alookup {κ α : Type} [DecidableEq κ] : List (κ × α) → κ → Option α
  | [], _ => none
  | (k, v) :: t, q => if k = q then some v else alookup t q

/-- Ordered association-list update: overwrite the existing binding in
place, or append a new one at the end — CPython dict assignment. -/
def assocSet {κ α : Type} [DecidableEq κ] : List (κ × α) → κ → α → List (κ × α)
  | [], k, v => [(k, v)]
  | (k', v') :: t, k, v =>
    if k' = k then (k, v) :: t else (k', v') :: assocSet t k v

/-- `BossState` from src/main.py. -/
structure BossState where
  name : String
  respawn_min : Int
  rate : Int := 100
  first_delay_min : Int := 0
  next_spawn_utc : Option Int := none
  channel_id : Option Int := none
  skip : Int := 0
deriving DecidableEq, Repr

/-- One guild's slice of `self.data`; `aliases := none` models the legacy
shape in which the `"aliases"` key is missing. -/
structure GuildData where
  bosses : List (String × BossState)
  channels : List Int
  aliases : Option (List (String × String))
deriving DecidableEq, Repr

/-- `self.data`: guild key to guild data. -/
abbrev StoreData := List (String × GuildData)

/-- Preset table `self.presets`: name to (respawn_min, rate,
first_delay_min), in catalog (file) order. -/
abbrev PresetTable := List (String × Int × Int × Int)

/-- An alias table: normalized text to official name. -/
abbrev AliasTable := List (String × String)

def emptyGuild : GuildData := ⟨[], [], some []⟩

/-- `_ensure_guild`: create the guild entry when missing, or repair a
legacy entry that lacks the `"aliases"` key.  Both paths mutate (and
persist) `self.data`. -/
def ensureGuild (d : StoreData) (g : String) : StoreData :=
  match alookup d g with
  | none => d ++ [(g, emptyGuild)]
  | some gd =>
    match gd.aliases with
    | none => assocSet d g { gd with aliases := some [] }
    | some _ => d

/-- `_get_boss`: a plain read, no `_ensure_guild`. -/
def getBoss (d : StoreData) (g name : String) : Option BossState :=
  match alookup d g with
  | none => none
  | some gd => alookup gd.bosses name

/-- `_set_boss`: ensure the guild, then store the record under its name
(and persist). -/
def setBoss (d : StoreData) (g : String) (st : BossState) : StoreData :=
  let d1 := ensureGuild d g
  match alookup d1 g with
  | some gd => assocSet d1 g { gd with bosses := assocSet gd.bosses st.name st }
  | none => d1

/-- The guild's boss records in storage order. -/
def bossesOf (d : StoreData) (g : String) : List BossState :=
  match alookup d g with
  | none => []
  | some gd => gd.bosses.map (·.2)

/-- Does `hay` begin with `pre`? (Python `str.startswith`.) -/
def chListStarts : List Char → List Char → Bool
  | [], _ => true
  | _ :: _, [] => false
  | a :: as, b :: bs => a = b && chListStarts as bs

/-- Does `hay` contain `needle`? (Python `in` on strings.) -/
def chListHas (pre : List Char) : List Char → Bool
  | [] => chListStarts pre []
  | c :: t => chListStarts pre (c :: t) || chListHas pre t

/-- The fuzzy test of `_resolve_boss_name` step 3:
`n.startswith(key) or key in n` on the normalized official name. -/
def matchesB (key off : String) : Bool :=
  let n := (normalize_for_match off).data
  chListStarts key.data n || chListHas key.data n

/-- Steps 1–3 of `_resolve_boss_name` after the exact-name test: guild
alias, preset alias, then the first preset whose normalized name matches
by prefix or substring. -/
def resolveTail (presets : PresetTable) (palias ua : AliasTable) (key : String) :
    Option String :=
  match alookup ua key with
  | some v => some v
  | none =>
    match alookup palias key with
    | some v => some v
    | none => (presets.find? (fun p => matchesB key p.1)).map (·.1)

/-- `_resolve_boss_name` as a function of its inputs alone (raw text,
catalog, the two alias tables). -/
def resolveCore (presets : PresetTable) (palias ua : AliasTable) (t : String) :
    Option String :=
  if (alookup presets t).isSome then some t
  else resolveTail presets palias ua (normalize_for_match t)

/-- The guild alias table that `self._aliases` returns, after its
`_ensure_guild`. -/
def aliasesAfterEnsure (d : StoreData) (g : String) : List (String × String) :=
  match alookup (ensureGuild d g) g with
  | some gd => gd.aliases.getD []
  | none => []

/-- `_resolve_boss_name` with its real state threading: the exact-name
branch returns before touching guild state, every other branch runs
`_ensure_guild` via `self._aliases`. -/
def resolveBossNameSt (presets : PresetTable) (palias : AliasTable)
    (d : StoreData) (g t : String) : StoreData × Option String :=
  if (alookup presets t).isSome then (d, some t)
  else
    (ensureGuild d g,
     resolveTail presets palias (aliasesAfterEnsure d g) (normalize_for_match t))

/-- `_parse_kill_input` on the already-split message (`content.split()` is
`pySplit`): resolve the name, then read the optional HHMM token
(`parts[1]`) and the optional interval token (`parts[2]`).  A non-3-4-digit
second token is ignored (the kill happens now); an out-of-range hour or
minute raises out of `datetime.replace`. -/
def parseKillParts (presets : PresetTable) (palias : AliasTable) (d : StoreData)
    (g : String) (n : Int) (parts : List String) :
    StoreData × Except Unit (Option (String × Int × Option Int)) :=
  match parts with
  | [] => (d, .ok none)
  | nm :: rest =>
    match resolveBossNameSt presets palias d g nm with
    | (d1, none) => (d1, .ok none)
    | (d1, some off) =>
      let killRes : Except Unit Int :=
        match rest.head? with
        | some tok =>
          if tokIsHHMM tok then
            match replaceHM n (zfillHHMM tok) with
            | .ok b => .ok (if n < b then b - 86400 else b)
            | .error e => .error e
          else .ok n
        | none => .ok n
      match killRes with
      | .error e => (d1, .error e)
      | .ok kill =>
        let ov :=
          match rest.get? 1 with
          | some t3 => parseIntervalToken t3
          | none => none
        (d1, .ok (some (off, kill, ov)))

/-- `st.channel_id or message.channel.id` — Python `or` keeps the stored
channel unless it is falsy (`None` or `0`). -/
def pyOrCh (o : Option Int) (ch : Int) : Option Int :=
  match o with
  | some c => if c ≠ 0 then some c else some ch
  | none => some ch

/-- The fresh record `on_message` builds when no record exists:
`presets.get(name, (60, 100, 0))`. -/
def defaultBoss (presets : PresetTable) (name : String) : BossState :=
  let t := (alookup presets name).getD (60, 100, 0)
  { name := name, respawn_min := t.1, rate := t.2.1, first_delay_min := t.2.2, next_spawn_utc := none, channel_id := none, skip := 0 }

/-- The kill branch of `on_message`: parse, then (`if respawn_override:`)
apply a truthy override, default the channel, schedule
`kill + respawn_min minutes`, zero the skip counter, store.  Returns the
new store and whether a kill was recorded (`.ok false` = not a kill input,
`.error ()` = exception propagated out of parsing). -/
def onKillParts (presets : PresetTable) (palias : AliasTable) (d : StoreData)
    (g : String) (ch n : Int) (parts : List String) :
    StoreData × Except Unit Bool :=
  match parseKillParts presets palias d g n parts with
  | (d1, .error e) => (d1, .error e)
  | (d1, .ok none) => (d1, .ok false)
  | (d1, .ok (some (name, kill, ov))) =>
    let st0 := (getBoss d1 g name).getD (defaultBoss presets name)
    let st1 :=
      match ov with
      | some v => if v ≠ 0 then { st0 with respawn_min := v } else st0
      | none => st0
    let st2 := { st1 with channel_id := pyOrCh st1.channel_id ch }
    let st3 := { st2 with next_spawn_utc := some (kill + st2.respawn_min * 60), skip := 0 }
    (setBoss d1 g st3, .ok true)

/-- The per-record computation of `_reset_all`: refresh the preset values,
then branch on rate and first delay exactly as the source does. -/
def resetBossCalc (presets : PresetTable) (base : Int) (st0 : BossState) :
    BossState :=
  let t := (alookup presets st0.name).getD
    (st0.respawn_min, st0.rate, st0.first_delay_min)
  let st := { st0 with respawn_min := t.1, rate := t.2.1, first_delay_min := t.2.2 }
  if st.rate = 100 ∧ st.first_delay_min = 0 then
    { st with next_spawn_utc := none, skip := 0 }
  else if st.rate = 100 ∧ 0 < st.first_delay_min then
    { st with next_spawn_utc := some (base + st.first_delay_min * 60), skip := 0 }
  else if (st.rate = 50 ∨ st.rate = 33) ∧ st.first_delay_min = 0 then
    { st with next_spawn_utc := some (base + st.respawn_min * 60), skip := 0 }
  else
    { st with next_spawn_utc := some (base + st.first_delay_min * 60), skip := 0 }

/-- `_reset_all`: seed every preset when the guild has no records yet,
then recompute each record via `resetBossCalc` and store it. -/
def resetAll (presets : PresetTable) (d : StoreData) (g : String) (base : Int) :
    StoreData :=
  let d1 := ensureGuild d g
  let bs := bossesOf d1 g
  let seeded :=
    if bs.isEmpty then
      presets.foldl
        (fun acc p =>
          setBoss acc g { name := p.1, respawn_min := p.2.1, rate := p.2.2.1, first_delay_min := p.2.2.2, next_spawn_utc := none, channel_id := none, skip := 0 })
        d1
    else d1
  (bossesOf seeded g).foldl
    (fun acc st => setBoss acc g (resetBossCalc presets base st)) seeded

/-- The filter of `_send_bt`: skip records without a (truthy) scheduled
time, and with a horizon skip those further than `horizon_h` hours ahead
of now — there is no lower bound. -/
def btKeep (now : Int) (h : Option Int) (st : BossState) :
    Option (Int × BossState) :=
  match st.next_spawn_utc with
  | none => none
  | some t =>
    if t ≠ 0 then
      match h with
      | some hh => if t - now ≤ hh * 3600 then some (t, st) else none
      | none => some (t, st)
    else none

/-- Insertion step of an ascending sort by occurrence time. -/
def insertByTs (x : Int × BossState) :
    List (Int × BossState) → List (Int × BossState)
  | [] => [x]
  | y :: t => if x.1 ≤ y.1 then x :: y :: t else y :: insertByTs x t

/-- `items.sort(key=lambda x: x[0])`: ascending by occurrence time. -/
def sortByTs (l : List (Int × BossState)) : List (Int × BossState) :=
  l.foldr insertByTs []

/-- The item list `_send_bt` builds and sorts before rendering: each item
is the occurrence time paired with the full record (which carries the miss
count and the rate the rendering derives its annotations from). -/
def btItems (bosses : List BossState) (now : Int) (h : Option Int) :
    List (Int × BossState) :=
  sortByTs (bosses.filterMap (btKeep now h))

/-- The dedup store for one (guild, channel, boss) line:
`(kind, occurrence timestamp)` keys to TTL expiry instants. -/
abbrev SentMap := List ((Bool × Int) × Int)

/-- A notification candidate: `kind = true` is the one-minute pre-warn,
`kind = false` the occurrence message; `occ` is the `next_spawn_utc` the
key was built from. -/
structure Emis where
  kind : Bool
  occ : Int
deriving DecidableEq, Repr

/-- `_already_sent`: suppressed while the recorded expiry has not passed
(`ts >= now`). -/
def alreadySentB (sent : SentMap) (key : Bool × Int) (n : Int) : Bool :=
  match alookup sent key with
  | some e => decide (n ≤ e)
  | none => false

/-- `_mark_sent`: record expiry now + `NOTIFY_DEDUP_TTL_SEC` (120). -/
def markSent (sent : SentMap) (key : Bool × Int) (n : Int) : SentMap :=
  (key, n + 120) :: sent

/-- `_cleanup_sent`: drop entries whose expiry has passed. -/
def cleanupSent (n : Int) (sent : SentMap) : SentMap :=
  sent.filter (fun p => decide (n ≤ p.2))

/-- Inside `MERGE_WINDOW_SEC` (10) of the target instant. -/
def winB (n c : Int) : Bool := decide (|n - c| ≤ 10)

/-- The target instant for a kind: one minute before the occurrence for
the pre-warn, the occurrence itself otherwise. -/
def emitCenter (k : Bool) (occ : Int) : Int := occ - (if k then 60 else 0)

/-- One guarded emission of `tick`: inside the merge window and not
suppressed, emit the candidate and mark the key. -/
def tryEmit (k : Bool) (n occ : Int) (sent : SentMap) : SentMap × List Emis :=
  if winB n (emitCenter k occ) && !(alreadySentB sent (k, occ) n) then
    (markSent sent (k, occ) n, [⟨k, occ⟩])
  else (sent, [])

/-- `if not st.next_spawn_utc or not st.channel_id: continue` — the record
is only processed when both are truthy. -/
def bossLive (st : BossState) : Option (Int × Int) :=
  match st.next_spawn_utc, st.channel_id with
  | some t, some c => if t ≠ 0 ∧ c ≠ 0 then some (t, c) else none
  | _, _ => none

/-- The per-record body of `tick`: pre-warn check, occurrence check, then
the auto-slide (`+= respawn_min` minutes and `skip += 1`) once the
occurrence is 60 seconds past. -/
def processBoss (n : Int) (sent : SentMap) (st : BossState) :
    SentMap × BossState × List Emis :=
  match bossLive st with
  | none => (sent, st, [])
  | some (nts, _) =>
    let p1 := tryEmit true n nts sent
    let p2 := tryEmit false n nts p1.1
    let st2 :=
      if 60 ≤ n - nts then
        { st with next_spawn_utc := some (nts + st.respawn_min * 60), skip := st.skip + 1 }
      else st
    (p2.1, st2, p1.2 ++ p2.2)

/-- One `tick` as seen by a single record: the global `_cleanup_sent`,
then the record's processing. -/
def tickOnce (n : Int) (p : SentMap × BossState) :
    (SentMap × BossState) × List Emis :=
  let s := cleanupSent n p.1
  let r := processBoss n s p.2
  ((r.1, r.2.1), r.2.2)

/-- A sequence of scanner ticks at the given instants, collecting every
notification candidate produced. -/
def runTicks : (SentMap × BossState) → List Int → (SentMap × BossState) × List Emis
  | p, [] => (p, [])
  | p, n :: rest =>
    let q := tickOnce n p
    let r := runTicks q.1 rest
    (r.1, q.2 ++ r.2)

/-- How many candidates of a kind were produced for the occurrence
identified by timestamp `N`. -/
def emisCount (k : Bool) (N : Int) (es : List Emis) : Nat :=
  (es.filter (fun e => e.kind == k && e.occ == N)).length

/-- A small catalog for concrete runs: the two-entry shape the claims
exercise (a 1h certain boss with no delay, an 8h certain boss). -/
def demoPresets : PresetTable := [("stan", 60, 100, 0), ("glaaki", 480, 100, 0)]

/-- A registered record for `stan` bound to channel 5. -/
def demoBoss : BossState :=
  { name := "stan", respawn_min := 60, rate := 100, first_delay_min := 0,
    next_spawn_utc := none, channel_id := some 5, skip := 0 }

/-- A store with one guild already holding the `stan` record. -/
def demoStore : StoreData := [("1", ⟨[("stan", demoBoss)], [5], some []⟩)]

/-- A catalog with two names that both match the normalized input
`que` by prefix. -/
def quePresets : PresetTable :=
  [("queenant", 60, 100, 0), ("queensantlion", 480, 50, 0)]

/-- A record whose occurrence is already in the past relative to the
query instant 1000000. -/
def pastBoss : BossState :=
  { name := "a", respawn_min := 60, next_spawn_utc := some 999900 }

/-- Claim C1, counterexample: the input `stan 1120 0h` supplies the
interval override `0` (the parser returns `some 0`), yet the scheduled
occurrence is `killMoment + 60·respawn_min = 994800`, not
`killMoment + 60·0 = 991200`: a supplied zero override is ignored by the
truthiness test `if respawn_override:`. -/
theorem kill_zero_override_counterexample :
    (parseKillParts demoPresets [] demoStore "1" 1000000 ["stan", "1120", "0h"]).2
      = .ok (some ("stan", 991200, some 0)) ∧
    getBoss (onKillParts demoPresets [] demoStore "1" 5 1000000
        ["stan", "1120", "0h"]).1 "1" "stan"
      = some { name := "stan", respawn_min := 60, rate := 100,
               first_delay_min := 0, next_spawn_utc := some 994800,
               channel_id := some 5, skip := 0 } ∧
    (994800 : Int) ≠ 991200 + 0 * 60 := by decide

/-- Claim C3, counterexample: bulk reset at baseline 32400 (09:00) maps
the 100%-rate, no-delay entity `stan` (interval 60 min) to an unscheduled
record (`next = none`), not to `baseline + interval`. -/
theorem reset_uniform_counterexample :
    getBoss (resetAll demoPresets demoStore "1" 32400) "1" "stan"
      = some { name := "stan", respawn_min := 60, rate := 100,
               first_delay_min := 0, next_spawn_utc := none,
               channel_id := some 5, skip := 0 } ∧
    (none : Option Int) ≠ some (32400 + 60 * 60) := by decide

/-- Claim C5, counterexample: the normalized input `que` prefix-matches
two distinct catalog names, yet resolution silently returns the first
(`queenant`); no ambiguity result exists in the code. -/
theorem ambiguous_first_match_counterexample :
    resolveCore quePresets [] [] "que" = some "queenant" ∧
    matchesB (normalize_for_match "que") "queenant" = true ∧
    matchesB (normalize_for_match "que") "queensantlion" = true ∧
    ("queenant" : String) ≠ "queensantlion" := by decide

/-- Claim C6, counterexample: resolving any non-exact text for a guild
with no stored record creates (and persists) an empty guild entry — the
resolve path is not a pure read. -/
theorem resolve_mutates_counterexample :
    (resolveBossNameSt demoPresets [] [] "1" "zzz").1 = [("1", emptyGuild)] ∧
    ([("1", emptyGuild)] : StoreData) ≠ [] := by decide

/-- Claim C7, counterexample: the malformed time token `12` (two digits)
is not rejected: parsing succeeds with `killMoment = now`, the kill is
recorded, and the store is mutated. -/
theorem malformed_token_counterexample :
    tokIsHHMM "12" = false ∧
    (parseKillParts demoPresets [] demoStore "1" 1000000 ["stan", "12"]).2
      = .ok (some ("stan", 1000000, none)) ∧
    (onKillParts demoPresets [] demoStore "1" 5 1000000 ["stan", "12"]).2
      = .ok true ∧
    (onKillParts demoPresets [] demoStore "1" 5 1000000 ["stan", "12"]).1
      ≠ demoStore := by decide

/-- Claim C8, counterexample: with `now = 1000000` and a 3-hour horizon,
the listing includes the record scheduled at 999900, which is strictly
before `now` — the filter has no lower bound. -/
theorem bt_past_included_counterexample :
    btItems [pastBoss] 1000000 (some 3) = [(999900, pastBoss)] ∧
    ¬ ((1000000 : Int) ≤ 999900) := by decide

/-- Claim C9, counterexample: the hiragana form and the katakana form of
the same syllable normalize to distinct strings — the pipeline
(NFKC, lower, keep alphanumerics) performs no kana-script folding. -/
theorem kana_not_folded_counterexample :
    normalize_for_match "あ" = "あ" ∧ normalize_for_match "ア" = "ア" ∧
    ("あ" : String) ≠ "ア" := by decide

/-- Claim C10: the token `2575` passes the digit-count guard
(`isdigit` and length 3–4), is padded to hour 25 and minute 75, and the
parse then raises out of the time-of-day construction
(`datetime.replace` with hour 25) instead of returning a rejection or a
parsed event. -/
theorem invalid_time_token_raises :
    tokIsHHMM "2575" = true ∧ zfillHHMM "2575" = (25, 75) ∧
    ¬ ((25 : Int) ≤ 23) ∧
    (parseKillParts demoPresets [] demoStore "1" 1000000 ["stan", "2575"]).2
      = .error () := by decide

theorem alookup_assocSet_self {κ α : Type} [DecidableEq κ]
    (l : List (κ × α)) (k : κ) (v : α) :
    alookup (assocSet l k v) k = some v := by
  induction l with
  | nil => simp [assocSet, alookup]
  | cons h t ih =>
    obtain ⟨k', v'⟩ := h
    by_cases hk : k' = k <;> simp [assocSet, hk, alookup, ih]

theorem alookup_assocSet_ne {κ α : Type} [DecidableEq κ]
    (l : List (κ × α)) (k q : κ) (v : α) (h : k ≠ q) :
    alookup (assocSet l k v) q = alookup l q := by
  induction l with
  | nil => simp [assocSet, alookup, h]
  | cons hd t ih =>
    obtain ⟨k', v'⟩ := hd
    by_cases hk : k' = k
    · subst hk
      simp [assocSet, alookup, h]
    · simp [assocSet, hk, alookup, ih]

theorem alookup_append_of_none {κ α : Type} [DecidableEq κ]
    (l₁ l₂ : List (κ × α)) (q : κ) (h : alookup l₁ q = none) :
    alookup (l₁ ++ l₂) q = alookup l₂ q := by
  induction l₁ with
  | nil => simp
  | cons hd t ih =>
    obtain ⟨k', v'⟩ := hd
    by_cases hk : k' = q
    · simp [alookup, hk] at h
    · simp [alookup, hk] at h ⊢
      exact ih h

theorem ensureGuild_lookup (d : StoreData) (g : String) :
    ∃ gd, alookup (ensureGuild d g) g = some gd ∧ gd.aliases.isSome := by
  cases h : alookup d g with
  | none =>
    refine ⟨emptyGuild, ?_, rfl⟩
    simp only [ensureGuild, h]
    rw [alookup_append_of_none _ _ _ h]
    simp [alookup]
  | some gd =>
    cases ha : gd.aliases with
    | none =>
      refine ⟨{ gd with aliases := some [] }, ?_, rfl⟩
      simp only [ensureGuild, h, ha]
      exact alookup_assocSet_self _ _ _
    | some l =>
      refine ⟨gd, ?_, by simp [ha]⟩
      simp only [ensureGuild, h, ha]

theorem ensureGuild_eq_self (d : StoreData) (g : String) (gd : GuildData)
    (h : alookup d g = some gd) (ha : gd.aliases.isSome) :
    ensureGuild d g = d := by
  cases hA : gd.aliases with
  | none => rw [hA] at ha; simp at ha
  | some l => simp only [ensureGuild, h, hA]

theorem getBoss_setBoss (d : StoreData) (g : String) (st : BossState) :
    getBoss (setBoss d g st) g st.name = some st := by
  obtain ⟨gd, hgd, _⟩ := ensureGuild_lookup d g
  simp only [setBoss, getBoss, hgd]
  simp [alookup_assocSet_self]

/-- Claim C6 (amended): name resolution is deterministic — on a store
whose guild entry already exists in the current format, it leaves the
store untouched and its answer is a pure function of the raw text, the
catalog and the two alias tables; the only mutation resolution can ever
perform is the lazy creation (or format repair) of the guild entry shown
in the counterexample. -/
theorem resolve_pure_on_existing (presets : PresetTable) (palias : AliasTable)
    (d : StoreData) (g t : String) (gd : GuildData)
    (h : alookup d g = some gd) (ha : gd.aliases.isSome) :
    resolveBossNameSt presets palias d g t
      = (d, resolveCore presets palias (gd.aliases.getD []) t) := by
  unfold resolveBossNameSt resolveCore
  by_cases he : (alookup presets t).isSome
  · simp [he]
  · have hE : ensureGuild d g = d := ensureGuild_eq_self d g gd h ha
    simp [he, aliasesAfterEnsure, hE, h]

/-- Witness for `resolve_pure_on_existing` at the demo store. -/
theorem resolve_pure_on_existing_witness :
    alookup demoStore "1" = some ⟨[("stan", demoBoss)], [5], some []⟩ ∧
    (Option.some ([] : List (String × String))).isSome = true ∧
    resolveBossNameSt demoPresets [] demoStore "1" "stanx"
      = (demoStore, resolveCore demoPresets [] [] "stanx") :=
  ⟨by decide, by decide,
   resolve_pure_on_existing demoPresets [] demoStore "1" "stanx"
     ⟨[("stan", demoBoss)], [5], some []⟩ (by decide) (by decide)⟩

/-- Claim C3 (amended): the per-entity computation of the bulk reset
always zeroes the miss counter, but the next occurrence is not uniform:
a 100%-rate entity with no initial delay is left unscheduled; a
100%-rate entity with a delay gets `baseline + initialDelay`; a 50%- or
33%-rate entity with no delay gets `baseline + respawnInterval`; every
other combination gets `baseline + initialDelay`. -/
theorem reset_branch_behavior (presets : PresetTable) (base : Int)
    (st0 : BossState) (rm rate fd : Int)
    (hp : alookup presets st0.name = some (rm, rate, fd)) :
    (resetBossCalc presets base st0).skip = 0 ∧
    (resetBossCalc presets base st0).respawn_min = rm ∧
    (rate = 100 ∧ fd = 0 →
      (resetBossCalc presets base st0).next_spawn_utc = none) ∧
    (rate = 100 ∧ 0 < fd →
      (resetBossCalc presets base st0).next_spawn_utc = some (base + fd * 60)) ∧
    ((rate = 50 ∨ rate = 33) ∧ fd = 0 →
      (resetBossCalc presets base st0).next_spawn_utc = some (base + rm * 60)) ∧
    (¬ (rate = 100 ∧ fd = 0) → ¬ (rate = 100 ∧ 0 < fd) →
      ¬ ((rate = 50 ∨ rate = 33) ∧ fd = 0) →
      (resetBossCalc presets base st0).next_spawn_utc = some (base + fd * 60)) := by
  simp only [resetBossCalc, hp]
  split_ifs with h1 h2 h3 <;> simp_all

/-- Witness for `reset_branch_behavior`: the 4h, 50%-rate, no-delay
entity reset at baseline 09:00 (32400) is scheduled for 13:00 (46800),
matching the spec's example for that class of entity. -/
theorem reset_branch_behavior_witness :
    alookup [(("four", 240, 50, 0) : String × Int × Int × Int)] "four"
      = some (240, 50, 0) ∧
    (resetBossCalc [("four", 240, 50, 0)] 32400
      { name := "four", respawn_min := 240, rate := 50 }).skip = 0 ∧
    (resetBossCalc [("four", 240, 50, 0)] 32400
      { name := "four", respawn_min := 240, rate := 50 }).next_spawn_utc
      = some 46800 :=
  ⟨by decide,
   (reset_branch_behavior [("four", 240, 50, 0)] 32400
      { name := "four", respawn_min := 240, rate := 50 } 240 50 0 (by decide)).1,
   by
     have h := (reset_branch_behavior [("four", 240, 50, 0)] 32400
       { name := "four", respawn_min := 240, rate := 50 } 240 50 0
       (by decide)).2.2.2.2.1 ⟨Or.inl rfl, rfl⟩
     simpa using h⟩

theorem find_first {α : Type} (p : α → Bool) :
    ∀ (l : List α) (x : α), l.find? p = some x →
      p x = true ∧ ∃ l1 l2, l = l1 ++ x :: l2 ∧ ∀ y ∈ l1, p y = false := by
  intro l
  induction l with
  | nil => intro x h; simp [List.find?] at h
  | cons a t ih =>
    intro x h
    by_cases hp : p a
    · rw [List.find?_cons_of_pos _ hp] at h
      cases h
      exact ⟨hp, [], t, rfl, by simp⟩
    · rw [List.find?_cons_of_neg _ (by simpa using hp)] at h
      obtain ⟨hx, l1, l2, rfl, hall⟩ := ih x h
      refine ⟨hx, a :: l1, l2, rfl, ?_⟩
      intro y hy
      rcases List.mem_cons.mp hy with rfl | hy
      · simpa using hp
      · exact hall y hy

/-- Claim C5 (amended): when the input matches no exact name and no
alias, resolution scans the catalog in order and silently accepts the
first entry whose normalized name matches by prefix or substring — even
when several entries match; no ambiguity result is ever produced (and
when nothing matches, resolution yields no entity). -/
theorem resolve_first_match (presets : PresetTable) (palias ua : AliasTable)
    (t : String)
    (hx : alookup presets t = none)
    (hu : alookup ua (normalize_for_match t) = none)
    (hp : alookup palias (normalize_for_match t) = none) :
    (resolveCore presets palias ua t = none ∧
      ∀ q ∈ presets, matchesB (normalize_for_match t) q.1 = false) ∨
    (∃ l1 q l2, presets = l1 ++ q :: l2 ∧
      matchesB (normalize_for_match t) q.1 = true ∧
      (∀ y ∈ l1, matchesB (normalize_for_match t) y.1 = false) ∧
      resolveCore presets palias ua t = some q.1) := by
  have hcore : resolveCore presets palias ua t
      = (presets.find? (fun p => matchesB (normalize_for_match t) p.1)).map (·.1) := by
    simp [resolveCore, resolveTail, hx, hu, hp]
  cases hf : presets.find? (fun p => matchesB (normalize_for_match t) p.1) with
  | none =>
    left
    refine ⟨by simp [hcore, hf], ?_⟩
    intro q hq
    have := List.find?_eq_none.mp hf q hq
    simpa using this
  | some q =>
    right
    obtain ⟨hq, l1, l2, hsplit, hall⟩ := find_first _ presets q hf
    exact ⟨l1, q, l2, hsplit, hq, fun y hy => hall y hy, by simp [hcore, hf]⟩

/-- Witness for `resolve_first_match` at the two-candidate catalog. -/
theorem resolve_first_match_witness :
    alookup quePresets "que" = none ∧
    alookup ([] : AliasTable) (normalize_for_match "que") = none ∧
    ((resolveCore quePresets [] [] "que" = none ∧
      ∀ q ∈ quePresets, matchesB (normalize_for_match "que") q.1 = false) ∨
    (∃ l1 q l2, quePresets = l1 ++ q :: l2 ∧
      matchesB (normalize_for_match "que") q.1 = true ∧
      (∀ y ∈ l1, matchesB (normalize_for_match "que") y.1 = false) ∧
      resolveCore quePresets [] [] "que" = some q.1)) :=
  ⟨by decide, by decide,
   resolve_first_match quePresets [] [] "que" (by decide) (by decide) (by decide)⟩

theorem normalize_append (s t : String) :
    normalize_for_match (s ++ t)
      = normalize_for_match s ++ normalize_for_match t := by
  have hd : (s ++ t).data = s.data ++ t.data := by
    cases s; cases t; rfl
  have hmk : ∀ a b : List Char, String.mk a ++ String.mk b = String.mk (a ++ b) := by
    intro a b; rfl
  simp [normalize_for_match, hd, hmk]

/-- Claim C9 (amended): the single normalization function is a string
homomorphism that erases whitespace and separator punctuation, folds
letter case, and folds fullwidth characters to their ASCII counterparts —
so forms differing only in those respects normalize identically — but it
performs no folding between the two kana scripts (see the
counterexample). -/
theorem normalize_folding :
    (∀ s t : String, normalize_for_match (s ++ t)
        = normalize_for_match s ++ normalize_for_match t) ∧
    (∀ c ∈ ([' ', '　', '、', '・', '-', '_', '.', ','] : List Char),
        normalize_for_match (String.mk [c]) = "") ∧
    (∀ p ∈ (['A', 'B', 'C', 'D', 'E', 'F', 'G', 'H', 'I', 'J', 'K', 'L', 'M',
             'N', 'O', 'P', 'Q', 'R', 'S', 'T', 'U', 'V', 'W', 'X', 'Y',
             'Z'].zip
            ['a', 'b', 'c', 'd', 'e', 'f', 'g', 'h', 'i', 'j', 'k', 'l', 'm',
             'n', 'o', 'p', 'q', 'r', 's', 't', 'u', 'v', 'w', 'x', 'y',
             'z'] : List (Char × Char)),
        normalize_for_match (String.mk [p.1]) = normalize_for_match (String.mk [p.2])) ∧
    (∀ p ∈ ([('Ａ', 'A'), ('ｂ', 'b'), ('１', '1'), ('Ｚ', 'Z'), ('ｚ', 'z'),
             ('９', '9'), ('　', ' ')] : List (Char × Char)),
        normalize_for_match (String.mk [p.1]) = normalize_for_match (String.mk [p.2])) := by
  refine ⟨normalize_append, ?_, ?_, ?_⟩ <;> decide

/-- Witness for `normalize_folding`: one concrete instance per clause. -/
theorem normalize_folding_witness :
    normalize_for_match ("queen" ++ " ant")
      = normalize_for_match "queen" ++ normalize_for_match " ant" ∧
    normalize_for_match (String.mk ['　']) = "" ∧
    normalize_for_match (String.mk ['Q']) = normalize_for_match (String.mk ['q']) ∧
    normalize_for_match (String.mk ['Ａ']) = normalize_for_match (String.mk ['A']) :=
  ⟨normalize_folding.1 "queen" " ant",
   normalize_folding.2.1 '　' (by decide),
   normalize_folding.2.2.1 ('Q', 'q') (by decide),
   normalize_folding.2.2.2 ('Ａ', 'A') (by decide)⟩

theorem insertByTs_perm (x : Int × BossState) (l : List (Int × BossState)) :
    (insertByTs x l).Perm (x :: l) := by
  induction l with
  | nil => simp [insertByTs]
  | cons y t ih =>
    by_cases h : x.1 ≤ y.1
    · simp [insertByTs, h]
    · simp only [insertByTs, h, if_neg]
      exact (ih.cons y).trans (List.Perm.swap x y t)

theorem sortByTs_perm (l : List (Int × BossState)) : (sortByTs l).Perm l := by
  induction l with
  | nil => simp [sortByTs]
  | cons a t ih =>
    have : sortByTs (a :: t) = insertByTs a (sortByTs t) := rfl
    rw [this]
    exact (insertByTs_perm a (sortByTs t)).trans (ih.cons a)

theorem insertByTs_sorted (x : Int × BossState) (l : List (Int × BossState))
    (h : l.Pairwise (fun a b => a.1 ≤ b.1)) :
    (insertByTs x l).Pairwise (fun a b => a.1 ≤ b.1) := by
  induction l with
  | nil => simp [insertByTs]
  | cons y t ih =>
    rcases List.pairwise_cons.mp h with ⟨hy, ht⟩
    by_cases hxy : x.1 ≤ y.1
    · simp only [insertByTs, hxy, if_pos]
      refine List.pairwise_cons.mpr ⟨?_, h⟩
      intro z hz
      rcases List.mem_cons.mp hz with rfl | hz
      · exact hxy
      · exact le_trans hxy (hy z hz)
    · simp only [insertByTs, hxy, if_neg]
      refine List.pairwise_cons.mpr ⟨?_, ih ht⟩
      intro z hz
      have hz' : z ∈ x :: t := (insertByTs_perm x t).mem_iff.mp hz
      rcases List.mem_cons.mp hz' with rfl | hz'
      · omega
      · exact hy z hz'

theorem sortByTs_sorted (l : List (Int × BossState)) :
    (sortByTs l).Pairwise (fun a b => a.1 ≤ b.1) := by
  induction l with
  | nil => simp [sortByTs]
  | cons a t ih => exact insertByTs_sorted a (sortByTs t) ih

theorem btKeep_eq_some (now : Int) (h : Option Int) (st : BossState)
    (p : Int × BossState) :
    btKeep now h st = some p ↔
      (st.next_spawn_utc = some p.1 ∧ p.2 = st ∧ p.1 ≠ 0 ∧
       ∀ hh, h = some hh → p.1 - now ≤ hh * 3600) := by
  obtain ⟨p1, p2⟩ := p
  cases hn : st.next_spawn_utc with
  | none => simp [btKeep, hn]
  | some t =>
    cases hh : h with
    | none =>
      simp only [btKeep, hn]
      split_ifs with ht <;> simp [Prod.ext_iff, ht] <;> aesop
    | some v =>
      simp only [btKeep, hn]
      split_ifs with ht hb <;> simp [Prod.ext_iff, ht] <;> aesop

/-- Claim C8 (amended): the listing query returns, as a permutation
sorted ascending by occurrence time, exactly the records that have a
(truthy) scheduled occurrence at most `now + horizon·3600` — including
occurrences already in the past, since the filter has no lower bound —
and all such records when the horizon is absent; each item carries the
full record, whose miss counter and rate the rendering annotates. -/
theorem bt_items_spec (bosses : List BossState) (now : Int) (h : Option Int) :
    (btItems bosses now h).Perm (bosses.filterMap (btKeep now h)) ∧
    (btItems bosses now h).Pairwise (fun a b => a.1 ≤ b.1) ∧
    ∀ p : Int × BossState, p ∈ btItems bosses now h ↔
      (p.2 ∈ bosses ∧ p.2.next_spawn_utc = some p.1 ∧ p.1 ≠ 0 ∧
       ∀ hh, h = some hh → p.1 - now ≤ hh * 3600) := by
  refine ⟨sortByTs_perm _, sortByTs_sorted _, ?_⟩
  intro p
  simp only [btItems]
  rw [(sortByTs_perm _).mem_iff, List.mem_filterMap]
  constructor
  · rintro ⟨st, hst, hkeep⟩
    obtain ⟨h1, h2, h3, h4⟩ := (btKeep_eq_some now h st p).mp hkeep
    subst h2
    exact ⟨hst, h1, h3, h4⟩
  · rintro ⟨hmem, h1, h3, h4⟩
    exact ⟨p.2, hmem, (btKeep_eq_some now h p.2 p).mpr ⟨h1, rfl, h3, h4⟩⟩

/-- Claim C7 (amended): a kill input whose time token is not 3–4 digits
is not rejected — the token is silently ignored and the kill is recorded
at the current moment; a malformed interval token is likewise ignored
(no override).  Processing proceeds and mutates the record: the new
occurrence is `now + 60·respawn_min` with the miss counter zeroed. -/
theorem malformed_token_ignored (presets : PresetTable) (palias : AliasTable)
    (d d1 : StoreData) (g : String) (ch n : Int) (nm tok ivt off : String)
    (r : BossState)
    (hres : resolveBossNameSt presets palias d g nm = (d1, some off))
    (htok : tokIsHHMM tok = false)
    (hiv : parseIntervalToken ivt = none)
    (hr : getBoss d1 g off = some r) (hrn : r.name = off) :
    parseKillParts presets palias d g n [nm, tok, ivt]
      = (d1, .ok (some (off, n, none))) ∧
    ∃ r', onKillParts presets palias d g ch n [nm, tok, ivt]
        = (setBoss d1 g r', .ok true) ∧
      getBoss (onKillParts presets palias d g ch n [nm, tok, ivt]).1 g off
        = some r' ∧
      r'.next_spawn_utc = some (n + r.respawn_min * 60) ∧ r'.skip = 0 := by
  have hparse : parseKillParts presets palias d g n [nm, tok, ivt]
      = (d1, .ok (some (off, n, none))) := by
    simp only [parseKillParts, hres]
    simp [htok, hiv]
  refine ⟨hparse, ?_⟩
  refine ⟨{ r with channel_id := pyOrCh r.channel_id ch, next_spawn_utc := some (n + r.respawn_min * 60), skip := 0 }, ?_, ?_, rfl, rfl⟩
  · simp only [onKillParts, hparse, hr]
    rfl
  · simp only [onKillParts, hparse, hr]
    have := getBoss_setBoss d1 g { r with channel_id := pyOrCh r.channel_id ch, next_spawn_utc := some (n + r.respawn_min * 60), skip := 0 }
    simpa [hrn] using this

/-- Witness for `malformed_token_ignored` at the demo store. -/
theorem malformed_token_ignored_witness :
    resolveBossNameSt demoPresets [] demoStore "1" "stan"
      = (demoStore, some "stan") ∧
    tokIsHHMM "12" = false ∧ parseIntervalToken "zh" = none ∧
    getBoss demoStore "1" "stan" = some demoBoss ∧
    (parseKillParts demoPresets [] demoStore "1" 1000000 ["stan", "12", "zh"]
      = (demoStore, .ok (some ("stan", 1000000, none))) ∧
    ∃ r', onKillParts demoPresets [] demoStore "1" 5 1000000 ["stan", "12", "zh"]
        = (setBoss demoStore "1" r', .ok true) ∧
      getBoss (onKillParts demoPresets [] demoStore "1" 5 1000000
          ["stan", "12", "zh"]).1 "1" "stan" = some r' ∧
      r'.next_spawn_utc = some (1000000 + demoBoss.respawn_min * 60) ∧
      r'.skip = 0) :=
  ⟨by decide, by decide, by decide, by decide,
   malformed_token_ignored demoPresets [] demoStore demoStore "1" 5 1000000
     "stan" "12" "zh" "stan" demoBoss (by decide) (by decide) (by decide)
     (by decide) (by decide)⟩

/-- Claim C1 (amended): a kill records `killMoment + 60·(override when
supplied and nonzero, otherwise the record's respawn_min)` and zeroes the
miss counter; `killMoment` is today at the given HH:MM, rolled back one
day exactly when that moment is strictly in the future (so it never lies
in the future), and is `now` when no time token is given.  A supplied
zero override is ignored (see the counterexample).  Dedup markers are
keyed by the occurrence timestamp, so the new occurrence is unnotified as
long as no dedup entry exists for its exact timestamp. -/
theorem kill_schedules (presets : PresetTable) (palias : AliasTable)
    (d d1 : StoreData) (g : String) (ch n killM : Int)
    (nm tok ivt off : String) (v : Int) (r : BossState)
    (hres : resolveBossNameSt presets palias d g nm = (d1, some off))
    (htok : tokIsHHMM tok = true)
    (hh0 : 0 ≤ (zfillHHMM tok).1) (hh : (zfillHHMM tok).1 ≤ 23)
    (hm0 : 0 ≤ (zfillHHMM tok).2) (hm : (zfillHHMM tok).2 ≤ 59)
    (hiv : parseIntervalToken ivt = some v) (hv : v ≠ 0)
    (hr : getBoss d1 g off = some r) (hrn : r.name = off)
    (hkm : killM = if n < dayStart n + 3600 * (zfillHHMM tok).1 + 60 * (zfillHHMM tok).2 then dayStart n + 3600 * (zfillHHMM tok).1 + 60 * (zfillHHMM tok).2 - 86400 else dayStart n + 3600 * (zfillHHMM tok).1 + 60 * (zfillHHMM tok).2) :
    killM ≤ n ∧
    (∃ r1, onKillParts presets palias d g ch n [nm, tok, ivt]
        = (setBoss d1 g r1, .ok true) ∧
      getBoss (onKillParts presets palias d g ch n [nm, tok, ivt]).1 g off
        = some r1 ∧
      r1.respawn_min = v ∧ r1.next_spawn_utc = some (killM + v * 60) ∧
      r1.skip = 0) ∧
    (∃ r2, getBoss (onKillParts presets palias d g ch n [nm, tok]).1 g off
        = some r2 ∧
      r2.next_spawn_utc = some (killM + r.respawn_min * 60) ∧ r2.skip = 0) ∧
    (∃ r3, getBoss (onKillParts presets palias d g ch n [nm]).1 g off
        = some r3 ∧
      r3.next_spawn_utc = some (n + r.respawn_min * 60) ∧ r3.skip = 0) ∧
    (∀ (k : Bool) (sent : SentMap) (m : Int),
      alookup sent (k, killM + v * 60) = none →
      alreadySentB sent (k, killM + v * 60) m = false) := by
  have hrepl : replaceHM n (zfillHHMM tok)
      = .ok (dayStart n + 3600 * (zfillHHMM tok).1 + 60 * (zfillHHMM tok).2) := by
    simp only [replaceHM]
    rw [if_pos]
    exact ⟨hh0, hh, hm0, hm⟩
  have hbound : killM ≤ n := by
    have h1 : 0 ≤ n % 86400 := Int.emod_nonneg n (by norm_num)
    have h2 : n % 86400 < 86400 := Int.emod_lt_of_pos n (by norm_num)
    have hds : dayStart n = n - n % 86400 := rfl
    split_ifs at hkm <;> omega
  refine ⟨hbound, ?_, ?_, ?_, ?_⟩
  · have hparse : parseKillParts presets palias d g n [nm, tok, ivt]
        = (d1, .ok (some (off, killM, some v))) := by
      simp only [parseKillParts, hres]
      simp [htok, hrepl, hiv, ← hkm]
    refine ⟨{ r with respawn_min := v, channel_id := pyOrCh r.channel_id ch, next_spawn_utc := some (killM + v * 60), skip := 0 }, ?_, ?_, rfl, rfl, rfl⟩
    · simp only [onKillParts, hparse, hr]
      simp [hv]
    · simp only [onKillParts, hparse, hr]
      have := getBoss_setBoss d1 g { r with respawn_min := v, channel_id := pyOrCh r.channel_id ch, next_spawn_utc := some (killM + v * 60), skip := 0 }
      simpa [hrn, hv] using this
  · have hparse : parseKillParts presets palias d g n [nm, tok]
        = (d1, .ok (some (off, killM, none))) := by
      simp only [parseKillParts, hres]
      simp [htok, hrepl, ← hkm]
    refine ⟨{ r with channel_id := pyOrCh r.channel_id ch, next_spawn_utc := some (killM + r.respawn_min * 60), skip := 0 }, ?_, rfl, rfl⟩
    simp only [onKillParts, hparse, hr]
    have := getBoss_setBoss d1 g { r with channel_id := pyOrCh r.channel_id ch, next_spawn_utc := some (killM + r.respawn_min * 60), skip := 0 }
    simpa [hrn] using this
  · have hparse : parseKillParts presets palias d g n [nm]
        = (d1, .ok (some (off, n, none))) := by
      simp only [parseKillParts, hres]
      simp
    refine ⟨{ r with channel_id := pyOrCh r.channel_id ch, next_spawn_utc := some (n + r.respawn_min * 60), skip := 0 }, ?_, rfl, rfl⟩
    simp only [onKillParts, hparse, hr]
    have := getBoss_setBoss d1 g { r with channel_id := pyOrCh r.channel_id ch, next_spawn_utc := some (n + r.respawn_min * 60), skip := 0 }
    simpa [hrn] using this
  · intro k sent m hnone
    simp [alreadySentB, hnone]

/-- Witness for `kill_schedules`: `stan 1120 4h` at `now = 1000000`
(13:46:40 local): killMoment 991200 (11:20, in the past, no rollback). -/
theorem kill_schedules_witness :
    tokIsHHMM "1120" = true ∧ parseIntervalToken "4h" = some 240 ∧
    ((991200 : Int) ≤ 1000000 ∧
     (∃ r1, onKillParts demoPresets [] demoStore "1" 5 1000000
          ["stan", "1120", "4h"] = (setBoss demoStore "1" r1, .ok true) ∧
        getBoss (onKillParts demoPresets [] demoStore "1" 5 1000000
            ["stan", "1120", "4h"]).1 "1" "stan" = some r1 ∧
        r1.respawn_min = 240 ∧ r1.next_spawn_utc = some (991200 + 240 * 60) ∧
        r1.skip = 0) ∧
     (∃ r2, getBoss (onKillParts demoPresets [] demoStore "1" 5 1000000
          ["stan", "1120"]).1 "1" "stan" = some r2 ∧
        r2.next_spawn_utc = some (991200 + demoBoss.respawn_min * 60) ∧
        r2.skip = 0) ∧
     (∃ r3, getBoss (onKillParts demoPresets [] demoStore "1" 5 1000000
          ["stan"]).1 "1" "stan" = some r3 ∧
        r3.next_spawn_utc = some (1000000 + demoBoss.respawn_min * 60) ∧
        r3.skip = 0) ∧
     (∀ (k : Bool) (sent : SentMap) (m : Int),
        alookup sent (k, 991200 + 240 * 60) = none →
        alreadySentB sent (k, 991200 + 240 * 60) m = false)) :=
  ⟨by decide, by decide,
   kill_schedules demoPresets [] demoStore demoStore "1" 5 1000000 991200
     "stan" "1120" "4h" "stan" 240 demoBoss (by decide) (by decide) (by decide)
     (by decide) (by decide) (by decide) (by decide) (by decide) (by decide)
     (by decide) (by decide)⟩

theorem alookup_cons_ne {κ α : Type} [DecidableEq κ]
    (l : List (κ × α)) (K K' : κ) (v : α) (h : K' ≠ K) :
    alookup ((K', v) :: l) K = alookup l K := by
  simp [alookup, h]

theorem alookup_cleanup_none (n : Int) (sent : SentMap) (K : Bool × Int)
    (h : alookup sent K = none) :
    alookup (cleanupSent n sent) K = none := by
  induction sent with
  | nil => simpa [cleanupSent] using h
  | cons hd t ih =>
    obtain ⟨K', e⟩ := hd
    by_cases hk : K' = K
    · subst hk; simp [alookup] at h
    · simp [alookup, hk] at h
      by_cases hkeep : n ≤ e <;>
        simp [cleanupSent, List.filter, hkeep, alookup, hk] <;>
        simpa [cleanupSent] using ih h

theorem alookup_cleanup_some (n : Int) (sent : SentMap) (K : Bool × Int)
    (e : Int) (h : alookup sent K = some e) (he : n ≤ e) :
    alookup (cleanupSent n sent) K = some e := by
  induction sent with
  | nil => simp [alookup] at h
  | cons hd t ih =>
    obtain ⟨K', e'⟩ := hd
    by_cases hk : K' = K
    · subst hk
      simp [alookup] at h
      subst h
      simp [cleanupSent, List.filter, he, alookup]
    · simp [alookup, hk] at h
      by_cases hkeep : n ≤ e' <;>
        simp [cleanupSent, List.filter, hkeep, alookup, hk] <;>
        simpa [cleanupSent] using ih h

theorem bossLive_some (st : BossState) (nts c : Int)
    (h : bossLive st = some (nts, c)) :
    st.next_spawn_utc = some nts ∧ st.channel_id = some c ∧ nts ≠ 0 ∧ c ≠ 0 := by
  cases hn : st.next_spawn_utc with
  | none => simp [bossLive, hn] at h
  | some t =>
    cases hc : st.channel_id with
    | none => simp [bossLive, hn, hc] at h
    | some c' =>
      simp only [bossLive, hn, hc] at h
      by_cases ht : t ≠ 0 ∧ c' ≠ 0
      · rw [if_pos ht] at h
        cases h
        exact ⟨rfl, rfl, ht.1, ht.2⟩
      · rw [if_neg ht] at h
        cases h

theorem emisCount_append (k : Bool) (N : Int) (a b : List Emis) :
    emisCount k N (a ++ b) = emisCount k N a + emisCount k N b := by
  simp [emisCount, List.filter_append]

theorem runTicks_cons (p : SentMap × BossState) (n : Int) (ts : List Int) :
    runTicks p (n :: ts)
      = ((runTicks (tickOnce n p).1 ts).1,
         (tickOnce n p).2 ++ (runTicks (tickOnce n p).1 ts).2) := rfl

theorem processBoss_not_live (n : Int) (sent : SentMap) (st : BossState)
    (h : bossLive st = none) :
    processBoss n sent st = (sent, st, []) := by
  simp [processBoss, h]

theorem processBoss_rm (n : Int) (sent : SentMap) (st : BossState) :
    (processBoss n sent st).2.1.respawn_min = st.respawn_min := by
  cases hl : bossLive st with
  | none => simp [processBoss, hl]
  | some p =>
    obtain ⟨nts, c⟩ := p
    by_cases hadv : 60 ≤ n - nts <;> simp [processBoss, hl, hadv]

theorem processBoss_advance (n : Int) (sent : SentMap) (st : BossState)
    (nts c : Int) (hl : bossLive st = some (nts, c)) :
    (¬ 60 ≤ n - nts → (processBoss n sent st).2.1 = st) ∧
    (60 ≤ n - nts →
      (processBoss n sent st).2.1.next_spawn_utc
        = some (nts + st.respawn_min * 60) ∧
      (processBoss n sent st).2.1.skip = st.skip + 1) := by
  by_cases hadv : 60 ≤ n - nts <;> simp [processBoss, hl, hadv]

theorem processBoss_nextInv (n : Int) (sent : SentMap) (st : BossState)
    (N : Int) (hrm : 0 < st.respawn_min)
    (h : ∃ M, st.next_spawn_utc = some M ∧ N ≤ M) :
    ∃ M, (processBoss n sent st).2.1.next_spawn_utc = some M ∧ N ≤ M := by
  obtain ⟨M, hM, hNM⟩ := h
  cases hl : bossLive st with
  | none => exact ⟨M, by simp [processBoss, hl, hM], hNM⟩
  | some p =>
    obtain ⟨nts, c⟩ := p
    have hnts : nts = M := by
      have := (bossLive_some st nts c hl).1
      rw [hM] at this
      exact Option.some_injective _ this.symm
    subst hnts
    by_cases hadv : 60 ≤ n - nts
    · exact ⟨nts + st.respawn_min * 60,
        ((processBoss_advance n sent st nts c hl).2 hadv).1, by omega⟩
    · exact ⟨nts, by rw [(processBoss_advance n sent st nts c hl).1 hadv]; exact hM, hNM⟩

theorem processBoss_gone (n : Int) (sent : SentMap) (st : BossState)
    (N : Int) (hrm : 0 < st.respawn_min)
    (h : ∃ M, st.next_spawn_utc = some M ∧ N < M) :
    ∃ M, (processBoss n sent st).2.1.next_spawn_utc = some M ∧ N < M := by
  obtain ⟨M, hM, hNM⟩ := h
  cases hl : bossLive st with
  | none => exact ⟨M, by simp [processBoss, hl, hM], hNM⟩
  | some p =>
    obtain ⟨nts, c⟩ := p
    have hnts : nts = M := by
      have := (bossLive_some st nts c hl).1
      rw [hM] at this
      exact Option.some_injective _ this.symm
    subst hnts
    by_cases hadv : 60 ≤ n - nts
    · exact ⟨nts + st.respawn_min * 60,
        ((processBoss_advance n sent st nts c hl).2 hadv).1, by omega⟩
    · exact ⟨nts, by rw [(processBoss_advance n sent st nts c hl).1 hadv]; exact hM, hNM⟩

theorem tryEmit_pos (k : Bool) (n occ : Int) (sent : SentMap)
    (h : (winB n (emitCenter k occ) && !alreadySentB sent (k, occ) n) = true) :
    tryEmit k n occ sent = (((k, occ), n + 120) :: sent, [⟨k, occ⟩]) := by
  simp only [tryEmit, markSent, if_pos h]

theorem tryEmit_neg (k : Bool) (n occ : Int) (sent : SentMap)
    (h : (winB n (emitCenter k occ) && !alreadySentB sent (k, occ) n) = false) :
    tryEmit k n occ sent = (sent, []) := by
  have h' : ¬ ((winB n (emitCenter k occ) && !alreadySentB sent (k, occ) n) = true) := by
    simp [h]
  simp only [tryEmit, markSent, if_neg h']

theorem processBoss_key_other (k : Bool) (N n : Int) (sent : SentMap)
    (st : BossState) (nts c : Int)
    (hl : bossLive st = some (nts, c)) (hne : nts ≠ N) :
    emisCount k N (processBoss n sent st).2.2 = 0 ∧
    alookup (processBoss n sent st).1 (k, N) = alookup sent (k, N) := by
  simp only [processBoss, hl]
  cases hc1 : winB n (emitCenter true nts) && !alreadySentB sent (true, nts) n with
  | false =>
    rw [tryEmit_neg true n nts sent hc1]
    cases hc2 : winB n (emitCenter false nts) && !alreadySentB sent (false, nts) n with
    | false =>
      rw [tryEmit_neg false n nts sent hc2]
      simp [emisCount]
    | true =>
      rw [tryEmit_pos false n nts sent hc2]
      exact ⟨by simp [emisCount, hne], alookup_cons_ne _ _ _ _ (by simp [hne])⟩
  | true =>
    rw [tryEmit_pos true n nts sent hc1]
    cases hc2 : winB n (emitCenter false nts) &&
        !alreadySentB (((true, nts), n + 120) :: sent) (false, nts) n with
    | false =>
      rw [tryEmit_neg false n nts _ hc2]
      exact ⟨by simp [emisCount, hne], alookup_cons_ne _ _ _ _ (by simp [hne])⟩
    | true =>
      rw [tryEmit_pos false n nts _ hc2]
      refine ⟨by simp [emisCount, hne], ?_⟩
      rw [alookup_cons_ne _ _ _ _ (by simp [hne]),
          alookup_cons_ne _ _ _ _ (by simp [hne])]

theorem processBoss_key_self_emit (k : Bool) (N n c : Int) (sent : SentMap)
    (st : BossState) (hl : bossLive st = some (N, c))
    (hwin : winB n (emitCenter k N) = true)
    (halready : alreadySentB sent (k, N) n = false) :
    emisCount k N (processBoss n sent st).2.2 = 1 ∧
    alookup (processBoss n sent st).1 (k, N) = some (n + 120) := by
  simp only [processBoss, hl]
  cases k with
  | false =>
    cases hc1 : winB n (emitCenter true N) && !alreadySentB sent (true, N) n with
    | false =>
      rw [tryEmit_neg true n N sent hc1]
      have hc2 : (winB n (emitCenter false N) &&
          !alreadySentB sent (false, N) n) = true := by
        simp [hwin, halready]
      rw [tryEmit_pos false n N sent hc2]
      exact ⟨by simp [emisCount], by simp [alookup]⟩
    | true =>
      rw [tryEmit_pos true n N sent hc1]
      have hpres : alreadySentB (((true, N), n + 120) :: sent) (false, N) n
          = alreadySentB sent (false, N) n := by
        simp [alreadySentB,
          alookup_cons_ne sent ((false, N) : Bool × Int) ((true, N) : Bool × Int)
            (n + 120) (by simp)]
      have hc2 : (winB n (emitCenter false N) &&
          !alreadySentB (((true, N), n + 120) :: sent) (false, N) n) = true := by
        rw [hpres]
        simp [hwin, halready]
      rw [tryEmit_pos false n N _ hc2]
      exact ⟨by simp [emisCount], by simp [alookup]⟩
  | true =>
    have hc1 : (winB n (emitCenter true N) &&
        !alreadySentB sent (true, N) n) = true := by
      simp [hwin, halready]
    rw [tryEmit_pos true n N sent hc1]
    cases hc2 : winB n (emitCenter false N) &&
        !alreadySentB (((true, N), n + 120) :: sent) (false, N) n with
    | false =>
      rw [tryEmit_neg false n N _ hc2]
      exact ⟨by simp [emisCount], by simp [alookup]⟩
    | true =>
      rw [tryEmit_pos false n N _ hc2]
      refine ⟨by simp [emisCount], ?_⟩
      rw [alookup_cons_ne _ ((true, N) : Bool × Int) ((false, N) : Bool × Int) _
        (by simp)]
      simp [alookup]

theorem processBoss_key_self_noemit (k : Bool) (N n c : Int) (sent : SentMap)
    (st : BossState) (hl : bossLive st = some (N, c))
    (hno : winB n (emitCenter k N) = false ∨ alreadySentB sent (k, N) n = true) :
    emisCount k N (processBoss n sent st).2.2 = 0 ∧
    alookup (processBoss n sent st).1 (k, N) = alookup sent (k, N) := by
  simp only [processBoss, hl]
  cases k with
  | false =>
    cases hc1 : winB n (emitCenter true N) && !alreadySentB sent (true, N) n with
    | false =>
      rw [tryEmit_neg true n N sent hc1]
      have hc2 : (winB n (emitCenter false N) &&
          !alreadySentB sent (false, N) n) = false := by
        rcases hno with h | h <;> simp [h]
      rw [tryEmit_neg false n N sent hc2]
      simp [emisCount]
    | true =>
      rw [tryEmit_pos true n N sent hc1]
      have hpres : alreadySentB (((true, N), n + 120) :: sent) (false, N) n
          = alreadySentB sent (false, N) n := by
        simp [alreadySentB,
          alookup_cons_ne sent ((false, N) : Bool × Int) ((true, N) : Bool × Int)
            (n + 120) (by simp)]
      have hc2 : (winB n (emitCenter false N) &&
          !alreadySentB (((true, N), n + 120) :: sent) (false, N) n) = false := by
        rw [hpres]
        rcases hno with h | h <;> simp [h]
      rw [tryEmit_neg false n N _ hc2]
      exact ⟨by simp [emisCount],
        alookup_cons_ne _ ((false, N) : Bool × Int) ((true, N) : Bool × Int) _
          (by simp)⟩
  | true =>
    have hc1 : (winB n (emitCenter true N) &&
        !alreadySentB sent (true, N) n) = false := by
      rcases hno with h | h <;> simp [h]
    rw [tryEmit_neg true n N sent hc1]
    cases hc2 : winB n (emitCenter false N) && !alreadySentB sent (false, N) n with
    | false =>
      rw [tryEmit_neg false n N sent hc2]
      simp [emisCount]
    | true =>
      rw [tryEmit_pos false n N sent hc2]
      exact ⟨by simp [emisCount],
        alookup_cons_ne _ ((true, N) : Bool × Int) ((false, N) : Bool × Int) _
          (by simp)⟩

theorem processBoss_next_cases (n : Int) (sent : SentMap) (st : BossState)
    (N : Int) (hn : st.next_spawn_utc = some N) :
    (processBoss n sent st).2.1.next_spawn_utc = some N ∨
    (processBoss n sent st).2.1.next_spawn_utc
      = some (N + st.respawn_min * 60) := by
  cases hl : bossLive st with
  | none => left; simp [processBoss, hl, hn]
  | some p =>
    obtain ⟨nts, c⟩ := p
    have hnts : nts = N := by
      have := (bossLive_some st nts c hl).1
      rw [hn] at this
      exact Option.some_injective _ this.symm
    subst hnts
    by_cases hadv : 60 ≤ n - nts
    · right
      exact ((processBoss_advance n sent st nts c hl).2 hadv).1
    · left
      rw [(processBoss_advance n sent st nts c hl).1 hadv]
      exact hn

theorem runTicks_next_form :
    ∀ (ts : List Int) (sent : SentMap) (st : BossState) (N : Int),
      st.next_spawn_utc = some N →
      ∃ k : ℕ, k ≤ ts.length ∧
        (runTicks (sent, st) ts).1.2.next_spawn_utc
          = some (N + (k : Int) * (st.respawn_min * 60)) ∧
        (runTicks (sent, st) ts).1.2.respawn_min = st.respawn_min := by
  intro ts
  induction ts with
  | nil =>
    intro sent st N hn
    exact ⟨0, by simp, by simpa [runTicks] using hn, by simp [runTicks]⟩
  | cons t rest ih =>
    intro sent st N hn
    rw [runTicks_cons]
    have hrm : (tickOnce t (sent, st)).1.2.respawn_min = st.respawn_min := by
      simp only [tickOnce]
      exact processBoss_rm _ _ _
    have hcases := processBoss_next_cases t (cleanupSent t sent) st N hn
    rcases hcases with hsame | hadv
    · obtain ⟨k, hk, hnext, hrm'⟩ :=
        ih (tickOnce t (sent, st)).1.1 (tickOnce t (sent, st)).1.2 N
          (by simpa [tickOnce] using hsame)
      refine ⟨k, by simpa using Nat.le_succ_of_le hk, ?_, ?_⟩
      · rw [show ((tickOnce t (sent, st)).1.1, (tickOnce t (sent, st)).1.2)
            = (tickOnce t (sent, st)).1 from rfl] at hnext
        rw [hnext, hrm]
      · rw [show ((tickOnce t (sent, st)).1.1, (tickOnce t (sent, st)).1.2)
            = (tickOnce t (sent, st)).1 from rfl] at hrm'
        rw [hrm', hrm]
    · obtain ⟨k, hk, hnext, hrm'⟩ :=
        ih (tickOnce t (sent, st)).1.1 (tickOnce t (sent, st)).1.2
          (N + st.respawn_min * 60) (by simpa [tickOnce] using hadv)
      refine ⟨k + 1, by simpa using Nat.succ_le_succ hk, ?_, ?_⟩
      · rw [show ((tickOnce t (sent, st)).1.1, (tickOnce t (sent, st)).1.2)
            = (tickOnce t (sent, st)).1 from rfl] at hnext
        rw [hnext, hrm]
        congr 1
        push_cast
        ring
      · rw [show ((tickOnce t (sent, st)).1.1, (tickOnce t (sent, st)).1.2)
            = (tickOnce t (sent, st)).1 from rfl] at hrm'
        rw [hrm', hrm]

/-- Claim C2: a scan tick that observes `now - nextOccurrence ≥ 60`
advances the occurrence by exactly one respawn interval and increments
the miss counter by exactly one; a tick that does not observe it leaves
the record unchanged — so the advance applies at most once per tick per
record — and over any sequence of ticks with no kill event the
occurrence always equals the original value plus a whole number of
respawn intervals (at most one per tick). -/
theorem tick_miss_advance (st : BossState) (N c0 : Int) (sent : SentMap)
    (hn : st.next_spawn_utc = some N) (hN : N ≠ 0)
    (hc : st.channel_id = some c0) (hc0 : c0 ≠ 0) :
    (∀ n, 60 ≤ n - N →
      (processBoss n sent st).2.1.next_spawn_utc
        = some (N + st.respawn_min * 60) ∧
      (processBoss n sent st).2.1.skip = st.skip + 1) ∧
    (∀ n, ¬ 60 ≤ n - N → (processBoss n sent st).2.1 = st) ∧
    (∀ ts : List Int, ∃ k : ℕ, k ≤ ts.length ∧
      (runTicks (sent, st) ts).1.2.next_spawn_utc
        = some (N + (k : Int) * (st.respawn_min * 60))) := by
  have hl : bossLive st = some (N, c0) := by
    simp [bossLive, hn, hc, hN, hc0]
  refine ⟨?_, ?_, ?_⟩
  · intro n hadv
    exact (processBoss_advance n sent st N c0 hl).2 hadv
  · intro n hadv
    exact (processBoss_advance n sent st N c0 hl).1 hadv
  · intro ts
    obtain ⟨k, hk, hnext, _⟩ := runTicks_next_form ts sent st N hn
    exact ⟨k, hk, hnext⟩

/-- Witness for `tick_miss_advance`: the spec's Scenario D shape — a
60-minute record at `N = 1000`: a tick at `N+60` or later advances once,
an earlier tick leaves the record unchanged, and every run of ticks lands
on `N` plus a whole number of intervals. -/
theorem tick_miss_advance_witness :
    ({ demoBoss with next_spawn_utc := some 1000 } : BossState).next_spawn_utc = some 1000 ∧
    ((∀ n, 60 ≤ n - 1000 →
      (processBoss n [] { demoBoss with next_spawn_utc := some 1000 }).2.1.next_spawn_utc = some (1000 + ({ demoBoss with next_spawn_utc := some 1000 } : BossState).respawn_min * 60) ∧
      (processBoss n [] { demoBoss with next_spawn_utc := some 1000 }).2.1.skip = ({ demoBoss with next_spawn_utc := some 1000 } : BossState).skip + 1) ∧
    (∀ n, ¬ 60 ≤ n - 1000 →
      (processBoss n [] { demoBoss with next_spawn_utc := some 1000 }).2.1 = { demoBoss with next_spawn_utc := some 1000 }) ∧
    (∀ ts : List Int, ∃ k : ℕ, k ≤ ts.length ∧
      (runTicks ([], { demoBoss with next_spawn_utc := some 1000 }) ts).1.2.next_spawn_utc = some (1000 + (k : Int) * (({ demoBoss with next_spawn_utc := some 1000 } : BossState).respawn_min * 60)))) :=
  ⟨rfl,
   tick_miss_advance { demoBoss with next_spawn_utc := some 1000 } 1000 5 []
     rfl (by decide) rfl (by decide)⟩

theorem processBoss_out_of_window (k : Bool) (N t : Int) (cl : SentMap)
    (st : BossState) (hW : emitCenter k N + 10 < t) :
    emisCount k N (processBoss t cl st).2.2 = 0 := by
  cases hl : bossLive st with
  | none =>
    rw [processBoss_not_live t cl st hl]
    simp [emisCount]
  | some p =>
    obtain ⟨nts, c⟩ := p
    by_cases hnn : nts = N
    · subst hnn
      have hwin : winB t (emitCenter k nts) = false := by
        simp only [winB, decide_eq_false_iff_not, abs_le, not_and, not_le]
        omega
      exact (processBoss_key_self_noemit k nts t c cl st hl (Or.inl hwin)).1
    · exact (processBoss_key_other k N t cl st nts c hl hnn).1

theorem c4_blocked (k : Bool) (N : Int) :
    ∀ (ts : List Int) (sent : SentMap) (st : BossState),
      List.Pairwise (· < ·) ts →
      0 < st.respawn_min →
      ((∃ M, st.next_spawn_utc = some M ∧ N < M) ∨
       (∃ e, alookup sent (k, N) = some e ∧ emitCenter k N + 110 ≤ e) ∨
       (∀ t ∈ ts, emitCenter k N + 10 < t)) →
      emisCount k N (runTicks (sent, st) ts).2 = 0 := by
  intro ts
  induction ts with
  | nil =>
    intro sent st _ _ _
    simp [runTicks, emisCount]
  | cons t rest ih =>
    intro sent st hp hrm hcase
    obtain ⟨hlt, hp'⟩ := List.pairwise_cons.mp hp
    rw [runTicks_cons, emisCount_append]
    have hstep : (tickOnce t (sent, st)).1
        = ((processBoss t (cleanupSent t sent) st).1,
           (processBoss t (cleanupSent t sent) st).2.1) := rfl
    have hemis : (tickOnce t (sent, st)).2
        = (processBoss t (cleanupSent t sent) st).2.2 := rfl
    have hrm' : 0 < (processBoss t (cleanupSent t sent) st).2.1.respawn_min := by
      rw [processBoss_rm]
      exact hrm
    rcases hcase with ⟨M, hM, hNM⟩ | ⟨e, hlook, he⟩ | htime
    · -- the record has moved past this occurrence for good
      have hcount : emisCount k N (processBoss t (cleanupSent t sent) st).2.2 = 0 := by
        cases hl : bossLive st with
        | none =>
          rw [processBoss_not_live t (cleanupSent t sent) st hl]
          simp [emisCount]
        | some p =>
          obtain ⟨nts, c⟩ := p
          have h1 := (bossLive_some st nts c hl).1
          rw [hM] at h1
          have hnts : nts = M := Option.some_injective _ h1.symm
          have hnn : nts ≠ N := by omega
          exact (processBoss_key_other k N t (cleanupSent t sent) st nts c hl hnn).1
      have hrest := ih (processBoss t (cleanupSent t sent) st).1
        (processBoss t (cleanupSent t sent) st).2.1 hp' hrm'
        (Or.inl (processBoss_gone t (cleanupSent t sent) st N hrm ⟨M, hM, hNM⟩))
      rw [hemis, hstep, hcount, hrest]
    · by_cases htW : t ≤ emitCenter k N + 10
      · -- the dedup mark is still alive and suppresses this tick
        have hecl : alookup (cleanupSent t sent) (k, N) = some e :=
          alookup_cleanup_some t sent (k, N) e hlook (by omega)
        have hkey : emisCount k N (processBoss t (cleanupSent t sent) st).2.2 = 0 ∧
            alookup (processBoss t (cleanupSent t sent) st).1 (k, N) = some e := by
          cases hl : bossLive st with
          | none =>
            rw [processBoss_not_live t (cleanupSent t sent) st hl]
            exact ⟨by simp [emisCount], hecl⟩
          | some p =>
            obtain ⟨nts, c⟩ := p
            by_cases hnn : nts = N
            · subst hnn
              have halr : alreadySentB (cleanupSent t sent) (k, nts) t = true := by
                simp only [alreadySentB, hecl, decide_eq_true_eq]
                omega
              have h2 := processBoss_key_self_noemit k nts t c (cleanupSent t sent) st hl (Or.inr halr)
              exact ⟨h2.1, by rw [h2.2]; exact hecl⟩
            · have h2 := processBoss_key_other k N t (cleanupSent t sent) st nts c hl hnn
              exact ⟨h2.1, by rw [h2.2]; exact hecl⟩
        have hrest := ih (processBoss t (cleanupSent t sent) st).1
          (processBoss t (cleanupSent t sent) st).2.1 hp' hrm'
          (Or.inr (Or.inl ⟨e, hkey.2, he⟩))
        rw [hemis, hstep, hkey.1, hrest]
      · -- the whole window is already in the past
        push_neg at htW
        have hcount := processBoss_out_of_window k N t (cleanupSent t sent) st htW
        have hrest := ih (processBoss t (cleanupSent t sent) st).1
          (processBoss t (cleanupSent t sent) st).2.1 hp' hrm'
          (Or.inr (Or.inr (fun t' ht' => lt_trans htW (hlt t' ht'))))
        rw [hemis, hstep, hcount, hrest]
    · -- every remaining tick is past the window
      have hW : emitCenter k N + 10 < t := htime t (by simp)
      have hcount := processBoss_out_of_window k N t (cleanupSent t sent) st hW
      have hrest := ih (processBoss t (cleanupSent t sent) st).1
        (processBoss t (cleanupSent t sent) st).2.1 hp' hrm'
        (Or.inr (Or.inr (fun t' ht' => htime t' (by simp [ht']))))
      rw [hemis, hstep, hcount, hrest]

theorem c4_main (k : Bool) (N : Int) :
    ∀ (ts : List Int) (sent : SentMap) (st : BossState),
      List.Pairwise (· < ·) ts →
      0 < st.respawn_min →
      (∃ M, st.next_spawn_utc = some M ∧ N ≤ M) →
      alookup sent (k, N) = none →
      emisCount k N (runTicks (sent, st) ts).2 ≤ 1 := by
  intro ts
  induction ts with
  | nil =>
    intro sent st _ _ _ _
    simp [runTicks, emisCount]
  | cons t rest ih =>
    intro sent st hp hrm hinv hnone
    obtain ⟨hlt, hp'⟩ := List.pairwise_cons.mp hp
    rw [runTicks_cons, emisCount_append]
    have hstep : (tickOnce t (sent, st)).1
        = ((processBoss t (cleanupSent t sent) st).1,
           (processBoss t (cleanupSent t sent) st).2.1) := rfl
    have hemis : (tickOnce t (sent, st)).2
        = (processBoss t (cleanupSent t sent) st).2.2 := rfl
    have hrm' : 0 < (processBoss t (cleanupSent t sent) st).2.1.respawn_min := by
      rw [processBoss_rm]
      exact hrm
    have hclnone : alookup (cleanupSent t sent) (k, N) = none :=
      alookup_cleanup_none t sent _ hnone
    have hinv' := processBoss_nextInv t (cleanupSent t sent) st N hrm hinv
    cases hl : bossLive st with
    | none =>
      have hPB := processBoss_not_live t (cleanupSent t sent) st hl
      have hcount : emisCount k N (processBoss t (cleanupSent t sent) st).2.2 = 0 := by
        rw [hPB]
        simp [emisCount]
      have hrest := ih (processBoss t (cleanupSent t sent) st).1
        (processBoss t (cleanupSent t sent) st).2.1 hp' hrm' hinv'
        (by rw [hPB]; exact hclnone)
      rw [hemis, hstep, hcount]
      simpa using hrest
    | some p =>
      obtain ⟨nts, c⟩ := p
      obtain ⟨M, hM, hNM⟩ := hinv
      have h1 := (bossLive_some st nts c hl).1
      rw [hM] at h1
      have hnts : nts = M := Option.some_injective _ h1.symm
      by_cases hnn : nts = N
      · subst hnn
        by_cases hwin : winB t (emitCenter k nts) = true
        · -- first (and only) emission for this occurrence
          have halr : alreadySentB (cleanupSent t sent) (k, nts) t = false := by
            simp [alreadySentB, hclnone]
          have h2 := processBoss_key_self_emit k nts t c (cleanupSent t sent) st
            hl hwin halr
          have habs : -10 ≤ t - emitCenter k nts ∧ t - emitCenter k nts ≤ 10 := by
            have hw := hwin
            simp only [winB, decide_eq_true_eq] at hw
            exact abs_le.mp hw
          have hrest := c4_blocked k nts rest
            (processBoss t (cleanupSent t sent) st).1
            (processBoss t (cleanupSent t sent) st).2.1 hp' hrm'
            (Or.inr (Or.inl ⟨t + 120, h2.2, by omega⟩))
          rw [hemis, hstep, h2.1, hrest]
        · have hw : winB t (emitCenter k nts) = false := by
            revert hwin
            cases winB t (emitCenter k nts) <;> simp
          have h2 := processBoss_key_self_noemit k nts t c (cleanupSent t sent) st
            hl (Or.inl hw)
          have hrest := ih (processBoss t (cleanupSent t sent) st).1
            (processBoss t (cleanupSent t sent) st).2.1 hp' hrm' hinv'
            (by rw [h2.2]; exact hclnone)
          rw [hemis, hstep, h2.1]
          simpa using hrest
      · have h2 := processBoss_key_other k N t (cleanupSent t sent) st nts c hl hnn
        have hrest := ih (processBoss t (cleanupSent t sent) st).1
          (processBoss t (cleanupSent t sent) st).2.1 hp' hrm' hinv'
          (by rw [h2.2]; exact hclnone)
        rw [hemis, hstep, h2.1]
        simpa using hrest

/-- Claim C4: over any run of scanner ticks at strictly increasing
instants, the occurrence identified by the timestamp `N` of a record with
a positive respawn interval triggers at most one pre-warn candidate and
at most one occurrence candidate, no matter how many ticks fall inside
(or outside) its merge windows: the first emission arms a 120-second
dedup key that outlives the 20-second merge window, and once the record
re-arms past `N` its keys name a different occurrence. -/
theorem notify_once_per_occurrence (st : BossState) (N : Int) (ts : List Int)
    (hn : st.next_spawn_utc = some N) (hrm : 0 < st.respawn_min)
    (hts : List.Pairwise (· < ·) ts) :
    emisCount true N (runTicks ([], st) ts).2 ≤ 1 ∧
    emisCount false N (runTicks ([], st) ts).2 ≤ 1 :=
  ⟨c4_main true N ts [] st hts hrm ⟨N, hn, le_refl N⟩ rfl,
   c4_main false N ts [] st hts hrm ⟨N, hn, le_refl N⟩ rfl⟩

/-- Witness for `notify_once_per_occurrence`: ticks every 5–60 seconds
across and beyond both merge windows of the occurrence at 1000. -/
theorem notify_once_per_occurrence_witness :
    ({ demoBoss with next_spawn_utc := some 1000 } : BossState).next_spawn_utc = some 1000 ∧
    (0 : Int) < ({ demoBoss with next_spawn_utc := some 1000 } : BossState).respawn_min ∧
    List.Pairwise (· < ·) ([930, 935, 945, 995, 1000, 1005, 1060, 1120] : List Int) ∧
    (emisCount true 1000 (runTicks ([], { demoBoss with next_spawn_utc := some 1000 }) [930, 935, 945, 995, 1000, 1005, 1060, 1120]).2 ≤ 1 ∧
     emisCount false 1000 (runTicks ([], { demoBoss with next_spawn_utc := some 1000 }) [930, 935, 945, 995, 1000, 1005, 1060, 1120]).2 ≤ 1) :=
  ⟨rfl, by decide, by decide,
   notify_once_per_occurrence { demoBoss with next_spawn_utc := some 1000 }
     1000 [930, 935, 945, 995, 1000, 1005, 1060, 1120] rfl (by decide) (by decide)⟩
